import Mathlib

/-!
Verification of the mcp-git-issue-priority coordination engine.

The TypeScript sources are shallowly embedded: JS strings become `String`
(or `List Char` where character-level reasoning is needed), ISO timestamps
become epoch milliseconds (`Int`) where they are compared numerically and
opaque `String`s where they are only stored, JS numbers used as scores
become `ℚ` (every score is an integer or an integer times 1.5, both exact
in the double precision the source uses), and the wall clock and the
process-liveness probe are threaded as explicit parameters.
-/

namespace MCPIssuePriority

/-- A GitHub label as projected by the engine (models `LabelSchema`). -/
structure Label where
  name : String
  color : String
  description : Option String
deriving Repr, DecidableEq

/-- Issue state, `z.enum(['open', 'closed'])`. -/
inductive IssueState where
  | opened
  | closed
deriving Repr, DecidableEq

/-- A GitHub issue as projected by the engine (models `IssueSchema`).
`created_at` is the epoch-millisecond value of the ISO timestamp and
`assignees` the list of assignee logins. -/
structure Issue where
  number : Nat
  title : String
  state : IssueState
  created_at : Int
  labels : List Label
  assignees : List String
deriving Repr, DecidableEq

/-- The `PriorityLabelSchema` enum. -/
def priorityLabelNames : List String :=
  ["priority:critical", "priority:high", "priority:medium", "priority:low"]

/-- The `TypeLabelSchema` enum. -/
def typeLabelNames : List String :=
  ["type:bug", "type:feature", "type:chore", "type:docs"]

/-- The `StatusLabelSchema` enum. -/
def statusLabelNames : List String :=
  ["status:backlog", "status:in-progress", "status:in-review", "status:blocked"]

/-- `String.prototype.startsWith`, modelled on the underlying character
lists (the builtin `String.startsWith` is opaque to kernel reduction). -/
def strStartsWith (s pre : String) : Bool :=
  s.data.take pre.data.length == pre.data

/-- `getPriorityLabel`: first label starting with `priority:`, validated
against the enum (zod `safeParse` returns null on failure). -/
def getPriorityLabel (issue : Issue) : Option String :=
  match issue.labels.find? (fun l => strStartsWith l.name "priority:") with
  | none => none
  | some l => if priorityLabelNames.contains l.name then some l.name else none

/-- `getTypeLabel`: first label starting with `type:`, validated against the enum. -/
def getTypeLabel (issue : Issue) : Option String :=
  match issue.labels.find? (fun l => strStartsWith l.name "type:") with
  | none => none
  | some l => if typeLabelNames.contains l.name then some l.name else none

/-- `getStatusLabel`: first label starting with `status:`, validated against the enum. -/
def getStatusLabel (issue : Issue) : Option String :=
  match issue.labels.find? (fun l => strStartsWith l.name "status:") with
  | none => none
  | some l => if statusLabelNames.contains l.name then some l.name else none

/-- `hasLabel`. -/
def hasLabel (issue : Issue) (labelName : String) : Bool :=
  issue.labels.any (fun l => l.name == labelName)

/-- `PRIORITY_BASE_POINTS` record. -/
def PRIORITY_BASE_POINTS (label : String) : ℚ :=
  if label = "priority:critical" then 1000
  else if label = "priority:high" then 100
  else if label = "priority:medium" then 10
  else if label = "priority:low" then 1
  else 0

/-- `MAX_AGE_BONUS`. -/
def MAX_AGE_BONUS : Int := 30

/-- `BLOCKING_MULTIPLIER`. -/
def BLOCKING_MULTIPLIER : ℚ := 3 / 2

/-- `calculateAgeInDays`: `Math.floor((now - created) / 86400000)`, with the
wall clock `now` threaded explicitly. -/
def calculateAgeInDays (now created : Int) : Int :=
  Int.fdiv (now - created) 86400000

/-- `hasBlockingRelationship`. -/
def hasBlockingRelationship (issue : Issue) : Bool :=
  hasLabel issue "blocking" || hasLabel issue "blocker"

/-- The computed `PriorityScore` tuple. -/
structure PriorityScore where
  issueNumber : Nat
  basePoints : ℚ
  ageBonus : Int
  blockingMultiplier : ℚ
  totalScore : ℚ
deriving Repr, DecidableEq

/-- `calculatePriorityScore` from `src/models/priority-score.ts`. The
function declares a single `issue` parameter; it computes no blocked
penalty and its `totalScore` is `(basePoints + ageBonus) * blockingMultiplier`. -/
def calculatePriorityScore (now : Int) (issue : Issue) : PriorityScore :=
  let basePoints : ℚ :=
    match getPriorityLabel issue with
    | some l => PRIORITY_BASE_POINTS l
    | none => 0
  let ageInDays := calculateAgeInDays now issue.created_at
  let ageBonus := min ageInDays MAX_AGE_BONUS
  let blockingMultiplier : ℚ :=
    if hasBlockingRelationship issue then BLOCKING_MULTIPLIER else 1
  let totalScore := (basePoints + (ageBonus : ℚ)) * blockingMultiplier
  ⟨issue.number, basePoints, ageBonus, blockingMultiplier, totalScore⟩

/-- `comparePriorityScores`: negative result means `a` sorts before `b`. -/
def comparePriorityScores (a b : PriorityScore) : ℚ :=
  if a.totalScore ≠ b.totalScore then b.totalScore - a.totalScore
  else (a.issueNumber : ℚ) - (b.issueNumber : ℚ)

/-- An issue scored by the priority service (`ScoredIssue`). -/
structure ScoredIssue where
  issue : Issue
  score : PriorityScore
  ageInDays : Int
  blockedByIssue : Option Nat
deriving Repr, DecidableEq

/-- `scoreIssuesWithDependencies` from `src/services/priority.ts`. The
source invokes `calculatePriorityScore(issue, { blockedByIssue })`, but the
callee declares only the `issue` parameter, so the options object cannot
influence the computed score; the dependency is recorded next to the
score only. -/
def scoreIssuesWithDependencies (now : Int) (dependencies : Nat → Option Nat)
    (issues : List Issue) : List ScoredIssue :=
  issues.map fun issue =>
    let blockedByIssue := dependencies issue.number
    ⟨issue, calculatePriorityScore now issue,
      calculateAgeInDays now issue.created_at, blockedByIssue⟩

/-- `SelectionFilter`. -/
structure SelectionFilter where
  includeTypes : Option (List String)
  excludeTypes : Option (List String)
deriving Repr, DecidableEq

/-- `type:` stripping used by the filter stages (`label.replace('type:', '')`;
the labels it is applied to come validated from `getTypeLabel`, for which
the first occurrence of `type:` is the leading one). -/
def stripTypeLabel (s : String) : String :=
  if strStartsWith s "type:" then String.mk (s.data.drop "type:".data.length) else s

/-- Stage 1 predicate of `applyFilters`: keep unless the derived status is
`status:in-progress`. -/
def notInProgress (issue : Issue) : Bool :=
  getStatusLabel issue != some "status:in-progress"

/-- Stage 2 predicate of `applyFilters`: keep when there is no assignee. -/
def noAssignees (issue : Issue) : Bool :=
  issue.assignees.length == 0

/-- Stage 3 predicate: with a non-empty include set, keep only matching types. -/
def includeTypePred (ts : List String) (issue : Issue) : Bool :=
  match getTypeLabel issue with
  | none => false
  | some tl => ts.contains (stripTypeLabel tl)

/-- Stage 4 predicate: with a non-empty exclude set, drop matching types. -/
def excludeTypePred (ts : List String) (issue : Issue) : Bool :=
  match getTypeLabel issue with
  | none => true
  | some tl => !(ts.contains (stripTypeLabel tl))

/-- `applyFilters` from `src/models/selection-filter.ts`: the four filter
stages applied in source order. -/
def applyFilters (issues : List Issue) (filter : SelectionFilter) : List Issue :=
  let filtered := issues.filter notInProgress
  let filtered := filtered.filter noAssignees
  let filtered :=
    match filter.includeTypes with
    | some ts => if ts.length > 0 then filtered.filter (includeTypePred ts) else filtered
    | none => filtered
  match filter.excludeTypes with
  | some ts => if ts.length > 0 then filtered.filter (excludeTypePred ts) else filtered
  | none => filtered

/-! ### Workflow store (`workflow-state.ts`, `workflow.ts`) -/

/-- The `WorkflowPhaseSchema` enum. -/
inductive WorkflowPhase where
  | selection
  | research
  | branch
  | implementation
  | testing
  | commit
  | pr
  | review
  | merged
  | abandoned
deriving Repr, DecidableEq

/-- A `PhaseTransition` record (source fields `from`/`to`; renamed because
`from` is a Lean keyword). -/
structure PhaseTransition where
  fromPhase : WorkflowPhase
  toPhase : WorkflowPhase
  timestamp : String
  triggeredBy : String
deriving Repr, DecidableEq

/-- A `SkipJustification` record. -/
structure SkipJustification where
  skippedPhase : WorkflowPhase
  justification : String
  timestamp : String
  sessionId : String
deriving Repr, DecidableEq

/-- `WorkflowStateSchema`. -/
structure WorkflowState where
  issueNumber : Nat
  repoFullName : String
  currentPhase : WorkflowPhase
  phaseHistory : List PhaseTransition
  skipJustifications : List SkipJustification
  branchName : Option String
  testsPassed : Option Bool
  prNumber : Option Nat
deriving Repr, DecidableEq

/-- `createWorkflowState` from `workflow-state.ts`: fresh state at phase
`selection` whose history already holds a `selection → selection` entry
recording the creating trigger. -/
def createWorkflowState (issueNumber : Nat) (repoFullName now triggeredBy : String) :
    WorkflowState :=
  { issueNumber := issueNumber
    repoFullName := repoFullName
    currentPhase := .selection
    phaseHistory := [⟨.selection, .selection, now, triggeredBy⟩]
    skipJustifications := []
    branchName := none
    testsPassed := none
    prNumber := none }

/-- `PHASE_ORDER` (does not contain `abandoned`). -/
def PHASE_ORDER : List WorkflowPhase :=
  [.selection, .research, .branch, .implementation, .testing, .commit, .pr, .review, .merged]

/-- `VALID_TRANSITIONS`. -/
def VALID_TRANSITIONS : WorkflowPhase → List WorkflowPhase
  | .selection => [.research, .abandoned]
  | .research => [.branch, .abandoned]
  | .branch => [.implementation, .abandoned]
  | .implementation => [.testing, .abandoned]
  | .testing => [.commit, .abandoned]
  | .commit => [.pr, .abandoned]
  | .pr => [.review, .abandoned]
  | .review => [.merged, .abandoned]
  | .merged => []
  | .abandoned => []

/-- `isValidTransition`. -/
def isValidTransition (a b : WorkflowPhase) : Bool :=
  (VALID_TRANSITIONS a).contains b

/-- `PHASE_ORDER.indexOf(p)`: JS `indexOf` yields `-1` when the element is
absent (`merged` is at 8; `abandoned` is absent, hence `-1`). -/
def phaseOrderIndex (p : WorkflowPhase) : Int :=
  match PHASE_ORDER.findIdx? (fun q => q == p) with
  | some i => (i : Int)
  | none => -1

/-- `canSkipTo`. -/
def canSkipTo (a b : WorkflowPhase) : Bool :=
  if b == .abandoned then true
  else phaseOrderIndex b > phaseOrderIndex a

/-- `getSkippedPhases`: `PHASE_ORDER.slice(fromIndex + 1, toIndex)` when
`toIndex > fromIndex + 1`, else `[]`. -/
def getSkippedPhases (a b : WorkflowPhase) : List WorkflowPhase :=
  let fi := phaseOrderIndex a
  let ti := phaseOrderIndex b
  if ti ≤ fi + 1 then []
  else ((PHASE_ORDER.drop (fi + 1).toNat).take (ti - (fi + 1)).toNat)

/-- `requiresTestsForTransition`. -/
def requiresTestsForTransition (b : WorkflowPhase) : Bool :=
  b == .commit || b == .pr

/-- The `options` bag of `validatePhaseTransition` / `recordPhaseTransition`. -/
structure TransitionOptions where
  testsPassed : Option Bool
  skipJustification : Option String
deriving Repr, DecidableEq

/-- JS truthiness of `options?.testsPassed`. -/
def testsTruthy (o : TransitionOptions) : Bool :=
  o.testsPassed == some true

/-- JS truthiness of `options?.skipJustification` (an empty string is falsy). -/
def skipTruthy (o : TransitionOptions) : Bool :=
  match o.skipJustification with
  | some s => !(s == "")
  | none => false

/-- `WorkflowService.validatePhaseTransition`, returning `none` for a valid
transition and `some code` otherwise (the human-readable error text is not
modelled, only the stable error code). -/
def validatePhaseTransition (currentPhase targetPhase : WorkflowPhase)
    (options : TransitionOptions) : Option String :=
  if isValidTransition currentPhase targetPhase then
    if requiresTestsForTransition targetPhase
        && !testsTruthy options && !skipTruthy options then
      some "TESTS_REQUIRED"
    else none
  else if canSkipTo currentPhase targetPhase then
    if !(getSkippedPhases currentPhase targetPhase).isEmpty && !skipTruthy options then
      some "SKIP_JUSTIFICATION_REQUIRED"
    else if requiresTestsForTransition targetPhase
        && !testsTruthy options && !skipTruthy options then
      some "TESTS_REQUIRED"
    else none
  else some "INVALID_PHASE_TRANSITION"

/-- `TransitionResult` (error text elided, `code` kept). -/
structure TransitionResult where
  success : Bool
  previousPhase : Option WorkflowPhase
  currentPhase : Option WorkflowPhase
  code : Option String
deriving Repr, DecidableEq

/-- `WorkflowService.recordPhaseTransition` on an existing state: validate,
then append one skip justification per skipped phase (when a justification
was supplied), append the transition to the history, move the phase, and
update `testsPassed` when the option is defined. On validation failure the
state is returned unchanged (the service returns before saving). -/
def recordPhaseTransition (sessionId now : String) (state : WorkflowState)
    (targetPhase : WorkflowPhase) (triggeredBy : String)
    (options : TransitionOptions) : TransitionResult × WorkflowState :=
  match validatePhaseTransition state.currentPhase targetPhase options with
  | some code => (⟨false, none, none, some code⟩, state)
  | none =>
    let justs :=
      if skipTruthy options then
        state.skipJustifications ++
          (getSkippedPhases state.currentPhase targetPhase).map
            (fun p => ⟨p, options.skipJustification.getD "", now, sessionId⟩)
      else state.skipJustifications
    let hist := state.phaseHistory ++ [⟨state.currentPhase, targetPhase, now, triggeredBy⟩]
    let tp :=
      match options.testsPassed with
      | some v => some v
      | none => state.testsPassed
    (⟨true, some state.currentPhase, some targetPhase, none⟩,
      { state with
          currentPhase := targetPhase
          phaseHistory := hist
          skipJustifications := justs
          testsPassed := tp })

/-! ### Lock store (`lock.ts`, `locking.ts`) -/

/-- A lock record (`LockSchema`); `acquiredAt` / `lastUpdated` are the epoch
milliseconds of the stored ISO timestamps. -/
structure Lock where
  issueNumber : Nat
  repoFullName : String
  pid : Nat
  sessionId : String
  acquiredAt : Int
  lastUpdated : Int
deriving Repr, DecidableEq

/-- `createLock`: both timestamps are the current instant. -/
def createLock (issueNumber : Nat) (repoFullName sessionId : String) (pid : Nat)
    (now : Int) : Lock :=
  ⟨issueNumber, repoFullName, pid, sessionId, now, now⟩

/-- Result of `process.kill(pid, 0)`: success, or an error with a code. -/
inductive ProbeResult where
  | ok
  | err (code : String)
deriving Repr, DecidableEq

/-- `isProcessAlive`: the zero-signal probe succeeds, or fails with `EPERM`
(both mean the process exists); any other error means absence. -/
def isProcessAlive (probe : Nat → ProbeResult) (pid : Nat) : Bool :=
  match probe pid with
  | .ok => true
  | .err code => code == "EPERM"

/-- `LOCK_STALE_TIMEOUT_MS = 30 * 60 * 1000`. -/
def LOCK_STALE_TIMEOUT_MS : Int := 30 * 60 * 1000

/-- `LockingService.isLockStale`. -/
def isLockStale (now : Int) (probe : Nat → ProbeResult) (lockData : Lock) : Bool :=
  (now - lockData.acquiredAt > LOCK_STALE_TIMEOUT_MS) || !(isProcessAlive probe lockData.pid)

/-- Outcome of an acquisition attempt (`LOCK_HELD` is the only error code an
existing file can produce in the model; filesystem faults are not modelled). -/
inductive AcquireOutcome where
  | success (lock : Lock)
  | lockHeld
deriving Repr, DecidableEq

/-- `writeFile(..., { flag: 'wx' })` on the single lock-file cell: fails when
a file already exists (`EEXIST`, surfaced as `LOCK_HELD`), else creates. -/
def exclusiveCreate (lockData : Lock) (fs : Option Lock) : AcquireOutcome × Option Lock :=
  match fs with
  | some existing => (.lockHeld, some existing)
  | none => (.success lockData, some lockData)

/-- `LockingService.acquireLock`, sequential semantics (no interleaving):
read the existing file; a present, non-stale record fails with `LOCK_HELD`;
a stale record is deleted; then the fresh record is exclusive-created. -/
def acquireLock (issueNumber : Nat) (repoFullName sessionId : String) (pid : Nat)
    (now : Int) (probe : Nat → ProbeResult) (fs : Option Lock) :
    AcquireOutcome × Option Lock :=
  match fs with
  | some existingLock =>
    if !(isLockStale now probe existingLock) then (.lockHeld, some existingLock)
    else exclusiveCreate (createLock issueNumber repoFullName sessionId pid now) none
  | none => exclusiveCreate (createLock issueNumber repoFullName sessionId pid now) fs

/-- `LockingService.getLockHolder`: the stored session id plus the stale flag
of whatever lock file exists, with no regard to who is asking. -/
def getLockHolder (now : Int) (probe : Nat → ProbeResult) (fs : Option Lock) :
    Option (String × Bool) :=
  match fs with
  | none => none
  | some lockData => some (lockData.sessionId, isLockStale now probe lockData)

/-- Identity of one concurrent acquirer (its session and its OS process). -/
structure AcquirerId where
  sessionId : String
  pid : Nat
deriving Repr, DecidableEq

/-- Local state of one in-flight `acquireLock` call, split at its `await`
points: `pc = 0` before the read, `1` after the read, `2` after the stale
delete, `3` finished with `outcome` set. -/
structure AcqProc where
  pc : Nat
  readVal : Option Lock
  outcome : Option AcquireOutcome
deriving Repr, DecidableEq

/-- A not-yet-started acquirer. -/
def acqInit : AcqProc := ⟨0, none, none⟩

/-- One atomic step of an in-flight `acquireLock` call against the shared
lock-file cell: the read, the staleness decision plus delete, and the
exclusive create are separated by `await` boundaries in the source, so
another process may run between them. -/
def acqStep (issueNumber : Nat) (repoFullName : String) (who : AcquirerId)
    (now : Int) (probe : Nat → ProbeResult) (p : AcqProc) (fs : Option Lock) :
    AcqProc × Option Lock :=
  match p.pc with
  | 0 => ({ p with pc := 1, readVal := fs }, fs)
  | 1 =>
    match p.readVal with
    | some l =>
      if !(isLockStale now probe l) then
        ({ p with pc := 3, outcome := some .lockHeld }, fs)
      else
        ({ p with pc := 2 }, none)
    | none =>
      let r := exclusiveCreate (createLock issueNumber repoFullName who.sessionId who.pid now) fs
      ({ p with pc := 3, outcome := some r.1 }, r.2)
  | 2 =>
    let r := exclusiveCreate (createLock issueNumber repoFullName who.sessionId who.pid now) fs
    ({ p with pc := 3, outcome := some r.1 }, r.2)
  | _ => (p, fs)

/-- Joint state of two concurrent acquirers of the same issue. -/
structure RaceState where
  a : AcqProc
  b : AcqProc
  fs : Option Lock
deriving Repr, DecidableEq

/-- Run one scheduled step (`false` steps acquirer A, `true` steps B). -/
def raceStep (issueNumber : Nat) (repoFullName : String) (A B : AcquirerId)
    (now : Int) (probe : Nat → ProbeResult) (s : RaceState) (choice : Bool) :
    RaceState :=
  if choice then
    let r := acqStep issueNumber repoFullName B now probe s.b s.fs
    { s with b := r.1, fs := r.2 }
  else
    let r := acqStep issueNumber repoFullName A now probe s.a s.fs
    { s with a := r.1, fs := r.2 }

/-- Run a whole schedule of interleaved steps. -/
def runRace (issueNumber : Nat) (repoFullName : String) (A B : AcquirerId)
    (now : Int) (probe : Nat → ProbeResult) (schedule : List Bool)
    (s : RaceState) : RaceState :=
  schedule.foldl (raceStep issueNumber repoFullName A B now probe) s

/-- Whether a finished acquirer believes it holds the lock. -/
def gotLock (p : AcqProc) : Bool :=
  match p.outcome with
  | some (.success _) => true
  | _ => false

/-! ### Batch store (`batch-state.ts`, `batch.ts`) -/

/-- A `CompletedIssue` entry. -/
structure CompletedIssue where
  issue : Nat
  pr : Nat
  startedAt : String
  mergedAt : String
deriving Repr, DecidableEq

/-- `BatchStateSchema.status`. -/
inductive BatchStatus where
  | in_progress
  | completed
  | timeout
  | abandoned
deriving Repr, DecidableEq

/-- `BatchStateSchema`. -/
structure BatchState where
  batchId : String
  repository : String
  totalCount : Nat
  completedCount : Nat
  currentIssue : Option Nat
  currentPr : Option Nat
  queue : List Nat
  completed : List CompletedIssue
  startedAt : String
  status : BatchStatus
deriving Repr, DecidableEq

/-- `createBatchState` (the generated UUID and the start timestamp are
threaded as parameters). -/
def createBatchState (batchId repository : String) (totalCount : Nat)
    (queue : List Nat) (startedAt : String) : BatchState :=
  { batchId := batchId
    repository := repository
    totalCount := totalCount
    completedCount := 0
    currentIssue := none
    currentPr := none
    queue := queue
    completed := []
    startedAt := startedAt
    status := .in_progress }

/-- `BatchService.startNextIssue` under its file lock: pop the queue head
into `currentIssue`; a missing batch or an empty queue is a no-op returning
null. -/
def startNextIssue (batch : BatchState) : Option Nat × BatchState :=
  match batch.queue with
  | [] => (none, batch)
  | issueNumber :: rest =>
    (some issueNumber, { batch with queue := rest, currentIssue := some issueNumber })

/-- `BatchService.setPrNumber`. -/
def setPrNumber (batch : BatchState) (prNumber : Nat) : BatchState :=
  { batch with currentPr := some prNumber }

/-- `BatchService.completeCurrentIssue`: requires both `currentIssue` and
`currentPr` (else no-op); appends to `completed`, bumps the counter, clears
the current fields, and marks the batch completed when the queue is empty. -/
def completeCurrentIssue (batch : BatchState) (issueStartedAt mergedAt : String) :
    BatchState :=
  match batch.currentIssue, batch.currentPr with
  | some issue, some pr =>
    let b :=
      { batch with
          completed := batch.completed ++ [(⟨issue, pr, issueStartedAt, mergedAt⟩ : CompletedIssue)]
          completedCount := batch.completedCount + 1
          currentIssue := none
          currentPr := none }
    if b.queue.isEmpty then { b with status := .completed } else b
  | _, _ => batch

/-- `BatchService.abandonBatch`. -/
def abandonBatch (batch : BatchState) : BatchState :=
  { batch with status := .abandoned }

/-- `BatchService.timeoutBatch`. -/
def timeoutBatch (batch : BatchState) : BatchState :=
  { batch with status := .timeout }

/-- The §4.5 batch invariant:
`completedCount + |queue| + (currentIssue ? 1 : 0) = totalCount`. -/
def batchInv (b : BatchState) : Prop :=
  b.completedCount + b.queue.length + (if b.currentIssue.isSome then 1 else 0) = b.totalCount

instance (b : BatchState) : Decidable (batchInv b) := by
  unfold batchInv; infer_instance

/-! ### Repository resolution (tool-local `parseRepository`, shared
`resolveRepository`) -/

/-- `String.prototype.split` at a separator character, modelled on the
underlying character lists (the builtin `String.splitOn` is opaque to
kernel reduction). -/
def splitChar (sep : Char) : List Char → List (List Char)
  | [] => [[]]
  | c :: cs =>
    let r := splitChar sep cs
    if c = sep then [] :: r
    else
      match r with
      | h :: t => (c :: h) :: t
      | [] => [[c]]

/-- The tool-local `parseRepository` helper duplicated verbatim in
`select-next-issue.ts`, `advance-workflow` (in `sync-backlog-labels.ts`),
`release_lock` and `force_claim`: it consults only the explicit argument,
never the environment. -/
def parseRepository (repository : Option String) : Option (String × String) :=
  match repository with
  | none => none
  | some r =>
    match (splitChar '/' r.data).map String.mk with
    | owner :: repo :: _ =>
      if owner != "" && repo != "" then some (owner, repo) else none
    | _ => none

/-- The guard those tools run: a failed parse is surfaced as `REPO_REQUIRED`. -/
def toolRepoGuard (repository : Option String) : Except String (String × String) :=
  match parseRepository repository with
  | none => .error "REPO_REQUIRED"
  | some p => .ok p

/-- `Config` from `src/config/index.ts`. The declared interface has only
the six fields below; `resolveRepository` nevertheless reads
`config.defaultRepository`, a property no part of the configuration code
declares or assigns, so the JS access always yields `undefined` — modelled
here as an extra field that `createConfig` fixes at `none`. -/
structure Config where
  baseDir : String
  locksDir : String
  workflowDir : String
  logsDir : String
  githubToken : String
  sessionId : String
  defaultRepository : Option (String × String)
deriving Repr, DecidableEq

/-- `createConfig` from `src/config/index.ts`, with the home directory, the
resolved token (explicit parameter → `GITHUB_TOKEN` → GitHub CLI) and the
generated session id threaded as parameters. It consults no environment
variable other than the token source: in particular it never reads
`GITHUB_REPOSITORY` or `GITHUB_OWNER`/`GITHUB_REPO`, and it assigns no
`defaultRepository`. -/
def createConfig (homeDir token sessionId : String) : Config :=
  { baseDir := homeDir ++ "/.mcp-git-issue-priority"
    locksDir := homeDir ++ "/.mcp-git-issue-priority/locks"
    workflowDir := homeDir ++ "/.mcp-git-issue-priority/workflow"
    logsDir := homeDir ++ "/.mcp-git-issue-priority/logs"
    githubToken := token
    sessionId := sessionId
    defaultRepository := none }

/-- `resolveRepository` from `src/utils/repository.ts`: a truthy explicit
argument splitting into two truthy parts wins; otherwise — including when
the explicit argument is malformed — the function falls back to
`config.defaultRepository`, and to `null` when that is not set. It reads
no environment variable itself. -/
def resolveRepository (repository : Option String) (config : Config) :
    Option (String × String) :=
  let explicit :=
    match repository with
    | some r =>
      if r != "" then
        match (splitChar '/' r.data).map String.mk with
        | owner :: repo :: _ =>
          if owner != "" && repo != "" then some (owner, repo) else none
        | _ => none
      else none
    | none => none
  match explicit with
  | some p => some p
  | none => config.defaultRepository

/-! ### The advance_workflow tool pipeline (registerAdvanceWorkflowTool) -/

/-- The state-relevant core of `advance_workflow`: resolve the lock holder,
then record the phase transition. The source checks only that
`getLockHolder` returned a value — the holder's session id is never
compared with the calling session — before recording the transition.
Returns the error code (or `none` on success) and the resulting stored
workflow state. -/
def advanceWorkflowTool (callerSessionId : String) (now : Int)
    (probe : Nat → ProbeResult) (lockFile : Option Lock) (wfNow : String)
    (wf : Option WorkflowState) (targetPhase : WorkflowPhase)
    (options : TransitionOptions) : Option String × Option WorkflowState :=
  match getLockHolder now probe lockFile with
  | none => (some "NOT_LOCKED", wf)
  | some _ =>
    match wf with
    | none => (some "WORKFLOW_NOT_FOUND", wf)
    | some state =>
      let r := recordPhaseTransition callerSessionId wfNow state targetPhase
        "advance_workflow" options
      if r.1.success then (none, some r.2) else (r.1.code, some state)

/-! ### Lock file names (`getLockFileName` / `parseLockFileName` / `listLocks`)

File names are modelled as `List Char` so that the character-level regex
`^([^_]+)_([^_]+)_(\d+)\.lockdata$` can be reasoned about directly. -/

/-- The literal `.lockdata` suffix. -/
def lockSuffix : List Char := ".lockdata".data

/-- Decimal digit of a value below ten (JS number-to-string rendering). -/
def digitChar (d : Nat) : Char :=
  match d with
  | 0 => '0'
  | 1 => '1'
  | 2 => '2'
  | 3 => '3'
  | 4 => '4'
  | 5 => '5'
  | 6 => '6'
  | 7 => '7'
  | 8 => '8'
  | 9 => '9'
  | _ => '*'

/-- The `\d` character class together with the digit's value. -/
def charDigit (c : Char) : Option Nat :=
  if '0' ≤ c ∧ c ≤ '9' then some (c.toNat - '0'.toNat) else none

/-- `${n}` for a natural JS number: standard decimal rendering. -/
def natChars (n : Nat) : List Char :=
  if n = 0 then ['0'] else (Nat.digits 10 n).reverse.map digitChar

/-- The digit values of a character list, or `none` when some character is
not a digit. -/
def digitsOfChars : List Char → Option (List Nat)
  | [] => some []
  | c :: cs =>
    match charDigit c, digitsOfChars cs with
    | some d, some ds => some (d :: ds)
    | _, _ => none

/-- `\d+` match plus `parseInt(s, 10)`: every character must be a digit and
there must be at least one. -/
def charsToNat (cs : List Char) : Option Nat :=
  match digitsOfChars cs with
  | none => none
  | some ds => if ds.isEmpty then none else some (ds.foldl (fun a d => 10 * a + d) 0)

/-- `getLockFileName(owner, repo, issueNumber)` =
`` `${owner}_${repo}_${issueNumber}.lockdata` ``. -/
def getLockFileName (owner repo : List Char) (issueNumber : Nat) : List Char :=
  owner ++ ('_' :: (repo ++ ('_' :: (natChars issueNumber ++ lockSuffix))))

/-- `file.endsWith('.lockdata')`. -/
def endsWithLockdata (f : List Char) : Bool :=
  decide (lockSuffix.length ≤ f.length) && (f.drop (f.length - lockSuffix.length) == lockSuffix)

/-- `parseLockFileName`: the anchored regex
`^([^_]+)_([^_]+)_(\d+)\.lockdata$` matches exactly when the name ends in
`.lockdata` and the remaining stem splits at underscores into exactly three
segments, the first two non-empty (and underscore-free by construction),
the third a non-empty digit string. -/
def parseLockFileName (fileName : List Char) :
    Option (List Char × List Char × Nat) :=
  if fileName.length < lockSuffix.length then none
  else if fileName.drop (fileName.length - lockSuffix.length) != lockSuffix then none
  else
    match splitChar '_' (fileName.take (fileName.length - lockSuffix.length)) with
    | [owner, repo, num] =>
      if owner.isEmpty || repo.isEmpty then none
      else
        match charsToNat num with
        | some n => some (owner, repo, n)
        | none => none
    | _ => none

/-- A `LockInfo` listing entry. -/
structure LockInfo where
  issueNumber : Nat
  repoFullName : List Char
  lock : Lock
  isStale : Bool
deriving Repr, DecidableEq

/-- `LockingService.listLocks`: scan the directory entries, keep `.lockdata`
names, parse each name, read the record at the parsed coordinates
(`readLock` models `readLockFile`), and report each record with its stale
flag. Files whose name fails to parse are silently skipped. -/
def listLocks (files : List (List Char))
    (readLock : List Char × List Char × Nat → Option Lock)
    (now : Int) (probe : Nat → ProbeResult) : List LockInfo :=
  files.filterMap fun file =>
    if !(endsWithLockdata file) then none
    else
      match parseLockFileName file with
      | none => none
      | some (owner, repo, n) =>
        match readLock (owner, repo, n) with
        | none => none
        | some lockData =>
          some ⟨n, owner ++ ('/' :: repo), lockData, isLockStale now probe lockData⟩

/-! ### Relations and invariants under verification -/

/-- The non-strict candidate order induced by `comparePriorityScores`:
`a` may appear before `b` when the comparator is non-positive. -/
def cmpLe (a b : PriorityScore) : Prop :=
  comparePriorityScores a b ≤ 0

instance (a b : PriorityScore) : Decidable (cmpLe a b) := by
  unfold cmpLe; infer_instance

/-- The transition relation exactly as the claim states it: admitted by the
§4.4 table directly, or `abandoned` (always reachable), or a forward skip
along the linear phase order with a skip-justification record present for
every intermediate phase. -/
def specAllows (t : PhaseTransition) (justs : List SkipJustification) : Prop :=
  isValidTransition t.fromPhase t.toPhase = true ∨
  t.toPhase = .abandoned ∨
  (t.fromPhase ∈ PHASE_ORDER ∧ t.toPhase ∈ PHASE_ORDER ∧
    phaseOrderIndex t.fromPhase < phaseOrderIndex t.toPhase ∧
    ∀ p ∈ getSkippedPhases t.fromPhase t.toPhase, ∃ j ∈ justs, j.skippedPhase = p)

instance (t : PhaseTransition) (justs : List SkipJustification) :
    Decidable (specAllows t justs) := by
  unfold specAllows; infer_instance

/-- The transition relation the code actually enforces: directly valid per
`VALID_TRANSITIONS`, or a jump admitted by `canSkipTo` (which compares
`PHASE_ORDER` indices with absent phases at `-1`, so `abandoned` is always
reachable and may itself be left by a justified jump) with a
skip-justification record for every phase `getSkippedPhases` reports. -/
def codeAllows (t : PhaseTransition) (justs : List SkipJustification) : Prop :=
  isValidTransition t.fromPhase t.toPhase = true ∨
  (canSkipTo t.fromPhase t.toPhase = true ∧
    ∀ p ∈ getSkippedPhases t.fromPhase t.toPhase, ∃ j ∈ justs, j.skippedPhase = p)

instance (t : PhaseTransition) (justs : List SkipJustification) :
    Decidable (codeAllows t justs) := by
  unfold codeAllows; infer_instance

/-- Workflow states producible by the workflow store: created fresh, or
mutated by `recordPhaseTransition`, `updateBranchName` or `updatePrNumber`. -/
inductive WorkflowReachable : WorkflowState → Prop where
  | created (issueNumber : Nat) (repoFullName now triggeredBy : String) :
      WorkflowReachable (createWorkflowState issueNumber repoFullName now triggeredBy)
  | recorded {s : WorkflowState} (sessionId now : String) (targetPhase : WorkflowPhase)
      (triggeredBy : String) (options : TransitionOptions) :
      WorkflowReachable s →
      WorkflowReachable (recordPhaseTransition sessionId now s targetPhase triggeredBy options).2
  | branchUpdated {s : WorkflowState} (branchName : String) :
      WorkflowReachable s → WorkflowReachable { s with branchName := some branchName }
  | prUpdated {s : WorkflowState} (prNumber : Nat) :
      WorkflowReachable s → WorkflowReachable { s with prNumber := some prNumber }

/-- Inductive invariant of the two-acquirer race when no stale lock is ever
observed: every value read and every value on disk is non-stale, an empty
cell means nobody has succeeded yet, and the two acquirers never both hold
a success. -/
def raceInv (now : Int) (probe : Nat → ProbeResult) (s : RaceState) : Prop :=
  (∀ l, s.a.readVal = some l → isLockStale now probe l = false) ∧
  (∀ l, s.b.readVal = some l → isLockStale now probe l = false) ∧
  (∀ l, s.fs = some l → isLockStale now probe l = false) ∧
  (s.fs = none → gotLock s.a = false ∧ gotLock s.b = false) ∧
  ¬(gotLock s.a = true ∧ gotLock s.b = true)

/-- Stage 3 of `applyFilters` as a function of the optional include set. -/
def stageInclude (o : Option (List String)) (l : List Issue) : List Issue :=
  match o with
  | some ts => if ts.length > 0 then l.filter (includeTypePred ts) else l
  | none => l

/-- Stage 4 of `applyFilters` as a function of the optional exclude set. -/
def stageExclude (o : Option (List String)) (l : List Issue) : List Issue :=
  match o with
  | some ts => if ts.length > 0 then l.filter (excludeTypePred ts) else l
  | none => l

/-- The element-wise predicate stage 3 enforces (vacuous when the stage is
switched off). -/
def stageIncludePass (o : Option (List String)) (i : Issue) : Bool :=
  match o with
  | some ts => if ts.length > 0 then includeTypePred ts i else true
  | none => true

/-- The element-wise predicate stage 4 enforces. -/
def stageExcludePass (o : Option (List String)) (i : Issue) : Bool :=
  match o with
  | some ts => if ts.length > 0 then excludeTypePred ts i else true
  | none => true

/-- The stem-matching core of `parseLockFileName` (what remains of the regex
after the `.lockdata` suffix has been stripped). -/
def parseStem (stem : List Char) : Option (List Char × List Char × Nat) :=
  match splitChar '_' stem with
  | [owner, repo, num] =>
    if owner.isEmpty || repo.isEmpty then none
    else
      match charsToNat num with
      | some n => some (owner, repo, n)
      | none => none
  | _ => none

/-! ### Concrete values used by claim instances -/

/-- §8 scenario 3: issue #45, `priority:high`, zero days old, with an open
parent #42 supplied by the sub-issue lookup. -/
def issue45 : Issue :=
  ⟨45, "Blocked child", .opened, 0, [⟨"priority:high", "d93f0b", none⟩], []⟩

/-- Dependency map recording the open parent #42 for issue #45. -/
def deps45 : Nat → Option Nat :=
  fun n => if n = 45 then some 42 else none

/-- A lock on issue #42 held by session `session-a` (pid 100, acquired at 0). -/
def lockOfSessionA : Lock := createLock 42 "octo/repo" "session-a" 100 0

/-- A freshly created workflow state for issue #42. -/
def wf42 : WorkflowState :=
  createWorkflowState 42 "octo/repo" "2026-01-01T00:00:00Z" "select_next_issue"

/-- Options carrying neither `testsPassed` nor a `skipJustification`. -/
def emptyOptions : TransitionOptions := ⟨none, none⟩

/-- A probe under which every process is alive. -/
def allAlive : Nat → ProbeResult := fun _ => .ok

/-- A workflow state resting at phase `testing` (§8 scenario 4). -/
def wfAtTesting : WorkflowState :=
  ⟨42, "octo/repo", .testing, [], [], some "42-fix", none, none⟩

/-- An issue carrying `status:in-progress` behind another status label. -/
def issueDoubleStatus : Issue :=
  ⟨7, "Double status", .opened, 0,
    [⟨"status:blocked", "b60205", none⟩, ⟨"status:in-progress", "0e8a16", none⟩], []⟩

/-- The empty selection filter. -/
def emptyFilter : SelectionFilter := ⟨none, none⟩

/-- A stale lock on issue #42: acquired at 0 and inspected more than 30
minutes later. -/
def staleLock42 : Lock := ⟨42, "octo/repo", 999, "stale-session", 0, 0⟩

/-- The two racing acquirers of §8 scenario 2. -/
def acquirerA : AcquirerId := ⟨"session-a", 100⟩

/-- Second racing acquirer. -/
def acquirerB : AcquirerId := ⟨"session-b", 101⟩

/-- The interleaving: A reads, B reads, A deletes the stale file, A creates,
B deletes (removing the lock A just created), B creates. -/
def toctouSchedule : List Bool := [false, true, false, false, true, true]

/-! ## Theorems -/

/-- C1: on the §8 scenario-3 input — issue #45, `priority:high`, zero days
old, with an OPEN parent #42 supplied by the dependency map —
`scoreIssuesWithDependencies` records the parent but computes the unblocked
total `(100 + 0) * 1 = 100`: `calculatePriorityScore` declares no options
parameter and applies no `blockedPenalty`, so the total is not one tenth of
the unblocked total as the spec requires. -/
theorem c1_no_blocked_penalty_eval :
    (scoreIssuesWithDependencies 0 deps45 [issue45]).map (fun s => s.blockedByIssue) =
      [some 42] ∧
    (scoreIssuesWithDependencies 0 deps45 [issue45]).map (fun s => s.score.totalScore) =
      [100] ∧
    ((100 : ℚ) + 0) * 1 * (1 / 10) ≠ 100 := by
  refine ⟨by decide, ?_, by norm_num⟩
  simp [scoreIssuesWithDependencies, calculatePriorityScore, deps45, issue45,
    getPriorityLabel, strStartsWith, priorityLabelNames, PRIORITY_BASE_POINTS,
    calculateAgeInDays, hasBlockingRelationship, hasLabel, MAX_AGE_BONUS,
    BLOCKING_MULTIPLIER]

/-- C2: a lock on issue #42 held by `session-a` does not stop the
`advance_workflow` pipeline invoked by `session-b`: `getLockHolder` returns
the holder without comparing sessions, the tool checks only that some
holder exists, and the foreign caller's transition `selection → research`
succeeds and is recorded, where the claim requires a `NOT_LOCKED` failure
with no phase change. -/
theorem c2_foreign_session_advance_eval :
    lockOfSessionA.sessionId = "session-a" ∧
    (advanceWorkflowTool "session-b" 0 allAlive (some lockOfSessionA)
        "2026-01-01T00:01:00Z" (some wf42) .research emptyOptions).1 = none ∧
    ((advanceWorkflowTool "session-b" 0 allAlive (some lockOfSessionA)
        "2026-01-01T00:01:00Z" (some wf42) .research emptyOptions).2.map
      (fun s => s.currentPhase)) = some .research :=
  ⟨rfl, by decide, by decide⟩

/-- C9: with no explicit repository argument, resolution fails regardless of
the environment. The local `parseRepository` used by `select_next_issue`,
`advance_workflow`, `release_lock` and `force_claim` yields `REPO_REQUIRED` —
it consults only the explicit argument. And for every possible home
directory, token and session id, the configuration `createConfig` builds
leaves `defaultRepository` unset (it reads no repository environment
variable), so even the shared `resolveRepository` of
`src/utils/repository.ts` — its only fallback being
`config.defaultRepository` — returns `null`. The claimed fallback to
`GITHUB_REPOSITORY`, then `GITHUB_OWNER` + `GITHUB_REPO`, exists nowhere in
the code. -/
theorem c9_env_fallback_missing_eval :
    ∀ homeDir token sessionId : String,
      toolRepoGuard none = .error "REPO_REQUIRED" ∧
      (createConfig homeDir token sessionId).defaultRepository = none ∧
      resolveRepository none (createConfig homeDir token sessionId) = none :=
  fun _ _ _ => ⟨rfl, rfl, rfl⟩

/-- C4 counterexample: the freshly created workflow state for issue #42
carries the single history entry `selection → selection`, and that entry is
not admitted by the claimed §4.4 relation — it is neither a direct
transition, nor a move to `abandoned`, nor a forward skip. -/
theorem c4_initial_marker_not_allowed :
    wf42.phaseHistory =
      [⟨.selection, .selection, "2026-01-01T00:00:00Z", "select_next_issue"⟩] ∧
    ¬ specAllows ⟨.selection, .selection, "2026-01-01T00:00:00Z", "select_next_issue"⟩
        wf42.skipJustifications :=
  ⟨rfl, by decide⟩

/-- C6 counterexample: starting from the two-issue batch `[1, 2]`, one
`startNextIssue` yields a state satisfying the invariant, but a second
`startNextIssue` — invoked while `currentIssue` is still set — pops issue 2
over issue 1 and leaves `completedCount + |queue| + 1 = 1 ≠ 2 = totalCount`,
so `startNextIssue` does not preserve the invariant as claimed. -/
theorem c6_startNextIssue_breaks_invariant :
    batchInv (startNextIssue (createBatchState "b1" "octo/repo" 2 [1, 2] "t0")).2 ∧
    ¬ batchInv (startNextIssue (startNextIssue
        (createBatchState "b1" "octo/repo" 2 [1, 2] "t0")).2).2 :=
  ⟨by decide, by decide⟩

/-- C8 counterexample: an unassigned issue whose label list is
`[status:blocked, status:in-progress]` carries the `status:in-progress`
label yet survives `applyFilters`, because the filter examines only the
first `status:`-prefixed label. -/
theorem c8_in_progress_label_survives :
    applyFilters [issueDoubleStatus] emptyFilter = [issueDoubleStatus] ∧
    hasLabel issueDoubleStatus "status:in-progress" = true :=
  ⟨by decide, by decide⟩

/-- C3 counterexample: with a stale lock on disk, the interleaving
`A reads; B reads; A deletes; A creates; B deletes; B creates` lets both
concurrent acquirers return success for the same issue — B's unconditional
stale-delete removes the lock A has just exclusive-created. -/
theorem c3_two_acquirers_both_succeed :
    isLockStale (30 * 60 * 1000 + 1) allAlive staleLock42 = true ∧
    gotLock (runRace 42 "octo/repo" acquirerA acquirerB (30 * 60 * 1000 + 1) allAlive
        toctouSchedule ⟨acqInit, acqInit, some staleLock42⟩).a = true ∧
    gotLock (runRace 42 "octo/repo" acquirerA acquirerB (30 * 60 * 1000 + 1) allAlive
        toctouSchedule ⟨acqInit, acqInit, some staleLock42⟩).b = true :=
  ⟨by decide, by decide, by decide⟩

/-- C5: from a phase directly preceding `commit` or `pr`, advancing into
`commit` resp. `pr` with neither a truthy `testsPassed` nor a (non-empty)
`skipJustification` fails with `TESTS_REQUIRED` and returns the stored
state unchanged — same phase, history and justifications — while supplying
`testsPassed = true` or a skip justification makes the same transition
succeed and move the phase. -/
theorem c5_tests_gate :
    ∀ (s : WorkflowState) (targetPhase : WorkflowPhase)
      (sessionId now triggeredBy : String) (o : TransitionOptions),
      (s.currentPhase = .testing ∧ targetPhase = .commit) ∨
        (s.currentPhase = .commit ∧ targetPhase = .pr) →
      (testsTruthy o = false ∧ skipTruthy o = false →
        recordPhaseTransition sessionId now s targetPhase triggeredBy o =
          (⟨false, none, none, some "TESTS_REQUIRED"⟩, s)) ∧
      (testsTruthy o = true ∨ skipTruthy o = true →
        (recordPhaseTransition sessionId now s targetPhase triggeredBy o).1.success = true ∧
        (recordPhaseTransition sessionId now s targetPhase triggeredBy o).2.currentPhase =
          targetPhase) := by
  intro s tp sid now trig o h
  have hv : isValidTransition s.currentPhase tp = true := by
    rcases h with ⟨h1, h2⟩ | ⟨h1, h2⟩ <;> subst h2 <;> rw [h1] <;> decide
  have hr : requiresTestsForTransition tp = true := by
    rcases h with ⟨h1, h2⟩ | ⟨h1, h2⟩ <;> subst h2 <;> decide
  constructor
  · rintro ⟨ht, hs⟩
    simp [recordPhaseTransition, validatePhaseTransition, hv, hr, ht, hs]
  · intro hts
    have hgate : (requiresTestsForTransition tp && !testsTruthy o && !skipTruthy o) = false := by
      rcases hts with h' | h' <;> simp [h']
    simp [recordPhaseTransition, validatePhaseTransition, hv, hgate]

/-- C5 witness: at the concrete state resting at `testing` (§8 scenario 4),
an advance to `commit` with empty options fails with `TESTS_REQUIRED` and
leaves the state untouched, and the same advance with `testsPassed = true`
succeeds. -/
theorem c5_tests_gate_witness :
    recordPhaseTransition "session-a" "t1" wfAtTesting .commit "advance_workflow"
        emptyOptions =
      (⟨false, none, none, some "TESTS_REQUIRED"⟩, wfAtTesting) ∧
    (recordPhaseTransition "session-a" "t1" wfAtTesting .commit "advance_workflow"
        ⟨some true, none⟩).1.success = true := by
  have h1 := c5_tests_gate wfAtTesting .commit "session-a" "t1" "advance_workflow"
    emptyOptions (Or.inl ⟨rfl, rfl⟩)
  have h2 := c5_tests_gate wfAtTesting .commit "session-a" "t1" "advance_workflow"
    ⟨some true, none⟩ (Or.inl ⟨rfl, rfl⟩)
  exact ⟨h1.1 ⟨rfl, rfl⟩, (h2.2 (Or.inl rfl)).1⟩

/-- C6 amended: `createBatch` establishes the §4.5 count invariant, and
`setPrNumber`, `completeCurrentIssue`, `abandonBatch` and `timeoutBatch`
preserve it unconditionally; `startNextIssue` preserves it provided
`currentIssue` is clear when it runs — which is how the tool layer invokes
it (right after batch creation and right after `completeCurrentIssue`) —
but not in general (see the counterexample). -/
theorem c6_batch_invariant_amended :
    (∀ (batchId repository startedAt : String) (queue : List Nat),
      batchInv (createBatchState batchId repository queue.length queue startedAt)) ∧
    (∀ b : BatchState, batchInv b → b.currentIssue = none →
      batchInv (startNextIssue b).2) ∧
    (∀ (b : BatchState) (prNumber : Nat), batchInv b →
      batchInv (setPrNumber b prNumber)) ∧
    (∀ (b : BatchState) (t1 t2 : String), batchInv b →
      batchInv (completeCurrentIssue b t1 t2)) ∧
    (∀ b : BatchState, batchInv b → batchInv (abandonBatch b)) ∧
    (∀ b : BatchState, batchInv b → batchInv (timeoutBatch b)) := by
  refine ⟨?_, ?_, ?_, ?_, ?_, ?_⟩
  · intro bid repo st q
    simp [batchInv, createBatchState]
  · intro b hb hc
    unfold batchInv at hb ⊢
    cases hq : b.queue with
    | nil => simpa [startNextIssue, hq] using hb
    | cons hd tl =>
      rw [hq] at hb
      simp only [startNextIssue, hq]
      simp only [hc, Option.isSome_none] at hb
      simp [List.length_cons] at hb ⊢
      omega
  · intro b pr hb
    simpa [batchInv, setPrNumber] using hb
  · intro b t1 t2 hb
    unfold batchInv at hb ⊢
    cases hci : b.currentIssue with
    | none => simpa [completeCurrentIssue, hci] using hb
    | some i =>
      cases hcp : b.currentPr with
      | none => simpa [completeCurrentIssue, hci, hcp] using hb
      | some p =>
        rw [hci] at hb
        simp only [completeCurrentIssue, hci, hcp]
        by_cases hq : b.queue.isEmpty <;> simp [hq] at hb ⊢ <;> omega
  · intro b hb
    simpa [batchInv, abandonBatch] using hb
  · intro b hb
    simpa [batchInv, timeoutBatch] using hb

/-- C6 witness: the amended preservation applied to the concrete two-issue
batch right after creation. -/
theorem c6_batch_invariant_amended_witness :
    batchInv (startNextIssue (createBatchState "b1" "octo/repo" 2 [1, 2] "t0")).2 := by
  have h := c6_batch_invariant_amended
  exact h.2.1 _ (h.1 "b1" "octo/repo" "t0" [1, 2]) rfl

/-- Characterization of the comparator order: `a` may come before `b` iff
`a` has the strictly larger total score or, at equal scores, the smaller or
equal issue number. -/
theorem cmpLe_iff (a b : PriorityScore) :
    cmpLe a b ↔
      (b.totalScore < a.totalScore ∨
        (a.totalScore = b.totalScore ∧ a.issueNumber ≤ b.issueNumber)) := by
  unfold cmpLe comparePriorityScores
  by_cases h : a.totalScore = b.totalScore
  · rw [if_neg (not_not_intro h), sub_nonpos, Nat.cast_le]
    simp [h]
  · rw [if_pos h, sub_nonpos]
    constructor
    · intro hle
      exact Or.inl (lt_of_le_of_ne hle (fun e => h e.symm))
    · rintro (hlt | ⟨he, _⟩)
      · exact hlt.le
      · exact absurd he h

/-- The comparator order is reflexive. -/
theorem cmpLe_refl (a : PriorityScore) : cmpLe a a :=
  (cmpLe_iff a a).mpr (Or.inr ⟨rfl, le_refl _⟩)

/-- Two scores below each other in the comparator order share both keys. -/
theorem cmpLe_antisymm_keys {a b : PriorityScore} (hab : cmpLe a b) (hba : cmpLe b a) :
    a.totalScore = b.totalScore ∧ a.issueNumber = b.issueNumber := by
  rw [cmpLe_iff] at hab hba
  rcases hab with h1 | ⟨h1, h2⟩
  · rcases hba with h3 | ⟨h3, _⟩
    · exact absurd h3 (lt_asymm h1)
    · exact absurd h3 (ne_of_lt h1)
  · rcases hba with h3 | ⟨_, h4⟩
    · exact absurd h3 (by rw [h1]; exact lt_irrefl _)
    · exact ⟨h1, le_antisymm h2 h4⟩

/-- Sorted permutations agree when no two distinct elements carry the same
`(totalScore, issueNumber)` key pair. -/
theorem sorted_perm_unique :
    ∀ {l₁ l₂ : List PriorityScore}, l₁.Perm l₂ →
      l₁.Sorted cmpLe → l₂.Sorted cmpLe →
      (∀ a ∈ l₁, ∀ b ∈ l₁,
        a.totalScore = b.totalScore → a.issueNumber = b.issueNumber → a = b) →
      l₁ = l₂ := by
  intro l₁
  induction l₁ with
  | nil =>
    intro l₂ hp _ _ _
    exact (hp.symm.eq_nil).symm
  | cons a t ih =>
    intro l₂ hp hs1 hs2 hinj
    cases l₂ with
    | nil => exact absurd hp.eq_nil (by simp)
    | cons b t₂ =>
      have hb_mem : b ∈ a :: t := hp.mem_iff.mpr (List.mem_cons_self b t₂)
      have ha_mem : a ∈ b :: t₂ := hp.mem_iff.mp (List.mem_cons_self a t)
      have hs1' := List.sorted_cons.mp hs1
      have hs2' := List.sorted_cons.mp hs2
      have hab : cmpLe a b := by
        rcases List.mem_cons.mp hb_mem with h | h
        · rw [h]; exact cmpLe_refl a
        · exact hs1'.1 b h
      have hba : cmpLe b a := by
        rcases List.mem_cons.mp ha_mem with h | h
        · rw [h]; exact cmpLe_refl b
        · exact hs2'.1 a h
      have hkey := cmpLe_antisymm_keys hab hba
      have hax : a = b := hinj a (List.mem_cons_self a t) b hb_mem hkey.1 hkey.2
      subst hax
      have hpt : t.Perm t₂ := hp.cons_inv
      have ht : t = t₂ :=
        ih hpt hs1'.2 hs2'.2
          (fun x hx y hy => hinj x (List.mem_cons_of_mem _ hx) y (List.mem_cons_of_mem _ hy))
      rw [ht]

/-- C7: `comparePriorityScores` puts the strictly greater total score first
and breaks ties by the lower issue number; the induced order is total and
transitive, and any two sorted lists that are permutations of each other
coincide when issue keys are unambiguous — sorting is deterministic and
independent of input order. -/
theorem c7_priority_order_total :
    (∀ a b : PriorityScore, b.totalScore < a.totalScore →
      comparePriorityScores a b < 0) ∧
    (∀ a b : PriorityScore, a.totalScore = b.totalScore →
      a.issueNumber < b.issueNumber → comparePriorityScores a b < 0) ∧
    (∀ a b : PriorityScore, cmpLe a b ∨ cmpLe b a) ∧
    (∀ a b c : PriorityScore, cmpLe a b → cmpLe b c → cmpLe a c) ∧
    (∀ l₁ l₂ : List PriorityScore, l₁.Perm l₂ → l₁.Sorted cmpLe → l₂.Sorted cmpLe →
      (∀ a ∈ l₁, ∀ b ∈ l₁,
        a.totalScore = b.totalScore → a.issueNumber = b.issueNumber → a = b) →
      l₁ = l₂) := by
  refine ⟨?_, ?_, ?_, ?_, ?_⟩
  · intro a b h
    unfold comparePriorityScores
    rw [if_pos (ne_of_gt h)]
    exact sub_neg.mpr h
  · intro a b he hn
    unfold comparePriorityScores
    rw [if_neg (not_not_intro he)]
    have : (a.issueNumber : ℚ) < b.issueNumber := by exact_mod_cast hn
    exact sub_neg.mpr this
  · intro a b
    rw [cmpLe_iff, cmpLe_iff]
    rcases lt_trichotomy a.totalScore b.totalScore with h | h | h
    · exact Or.inr (Or.inl h)
    · rcases le_total a.issueNumber b.issueNumber with hn | hn
      · exact Or.inl (Or.inr ⟨h, hn⟩)
      · exact Or.inr (Or.inr ⟨h.symm, hn⟩)
    · exact Or.inl (Or.inl h)
  · intro a b c hab hbc
    rw [cmpLe_iff] at hab hbc ⊢
    rcases hab with h1 | ⟨h1, h2⟩ <;> rcases hbc with h3 | ⟨h3, h4⟩
    · exact Or.inl (h3.trans h1)
    · exact Or.inl (h3 ▸ h1)
    · exact Or.inl (by rw [h1]; exact h3)
    · exact Or.inr ⟨h1.trans h3, h2.trans h4⟩
  · intro l₁ l₂ hp hs1 hs2 hinj
    exact sorted_perm_unique hp hs1 hs2 hinj

/-- C7 witness: the §8 scenario-1 scores — #41 at 107 sorts strictly before
#42 at 105. -/
theorem c7_priority_order_total_witness :
    comparePriorityScores ⟨41, 100, 7, 1, 107⟩ ⟨42, 100, 5, 1, 105⟩ < 0 :=
  c7_priority_order_total.1 _ _ (by norm_num)

/-- `applyFilters` is the stage-3/stage-4 pipeline applied after the two
unconditional filters. -/
theorem applyFilters_eq (issues : List Issue) (F : SelectionFilter) :
    applyFilters issues F =
      stageExclude F.excludeTypes
        (stageInclude F.includeTypes
          (List.filter noAssignees (List.filter notInProgress issues))) := rfl

/-- Stage 3 only drops elements. -/
theorem stageInclude_sublist (o : Option (List String)) (l : List Issue) :
    (stageInclude o l).Sublist l := by
  cases o with
  | none => exact List.Sublist.refl l
  | some ts =>
    by_cases h : ts.length > 0
    · rw [stageInclude, if_pos h]; exact List.filter_sublist l
    · rw [stageInclude, if_neg h]

/-- Stage 4 only drops elements. -/
theorem stageExclude_sublist (o : Option (List String)) (l : List Issue) :
    (stageExclude o l).Sublist l := by
  cases o with
  | none => exact List.Sublist.refl l
  | some ts =>
    by_cases h : ts.length > 0
    · rw [stageExclude, if_pos h]; exact List.filter_sublist l
    · rw [stageExclude, if_neg h]

/-- Members of a stage-3 result come from the input and satisfy the stage
predicate. -/
theorem mem_stageInclude {o : Option (List String)} {l : List Issue} {i : Issue}
    (h : i ∈ stageInclude o l) : i ∈ l ∧ stageIncludePass o i = true := by
  cases o with
  | none => exact ⟨h, rfl⟩
  | some ts =>
    by_cases hg : ts.length > 0
    · rw [stageInclude, if_pos hg] at h
      rcases List.mem_filter.mp h with ⟨h1, h2⟩
      exact ⟨h1, by rw [stageIncludePass, if_pos hg]; exact h2⟩
    · rw [stageInclude, if_neg hg] at h
      exact ⟨h, by rw [stageIncludePass, if_neg hg]⟩

/-- Members of a stage-4 result come from the input and satisfy the stage
predicate. -/
theorem mem_stageExclude {o : Option (List String)} {l : List Issue} {i : Issue}
    (h : i ∈ stageExclude o l) : i ∈ l ∧ stageExcludePass o i = true := by
  cases o with
  | none => exact ⟨h, rfl⟩
  | some ts =>
    by_cases hg : ts.length > 0
    · rw [stageExclude, if_pos hg] at h
      rcases List.mem_filter.mp h with ⟨h1, h2⟩
      exact ⟨h1, by rw [stageExcludePass, if_pos hg]; exact h2⟩
    · rw [stageExclude, if_neg hg] at h
      exact ⟨h, by rw [stageExcludePass, if_neg hg]⟩

/-- Stage 3 is the identity on lists whose members all pass it. -/
theorem stageInclude_eq_self (o : Option (List String)) (l : List Issue)
    (h : ∀ i ∈ l, stageIncludePass o i = true) : stageInclude o l = l := by
  cases o with
  | none => rfl
  | some ts =>
    by_cases hg : ts.length > 0
    · rw [stageInclude, if_pos hg]
      refine List.filter_eq_self.mpr (fun i hi => ?_)
      have := h i hi
      rwa [stageIncludePass, if_pos hg] at this
    · rw [stageInclude, if_neg hg]

/-- Stage 4 is the identity on lists whose members all pass it. -/
theorem stageExclude_eq_self (o : Option (List String)) (l : List Issue)
    (h : ∀ i ∈ l, stageExcludePass o i = true) : stageExclude o l = l := by
  cases o with
  | none => rfl
  | some ts =>
    by_cases hg : ts.length > 0
    · rw [stageExclude, if_pos hg]
      refine List.filter_eq_self.mpr (fun i hi => ?_)
      have := h i hi
      rwa [stageExcludePass, if_pos hg] at this
    · rw [stageExclude, if_neg hg]

/-- Every member of a filter result passes all four stage predicates. -/
theorem mem_applyFilters_pred {issues : List Issue} {F : SelectionFilter} {i : Issue}
    (h : i ∈ applyFilters issues F) :
    notInProgress i = true ∧ noAssignees i = true ∧
    stageIncludePass F.includeTypes i = true ∧
    stageExcludePass F.excludeTypes i = true := by
  rw [applyFilters_eq] at h
  rcases mem_stageExclude h with ⟨h1, hex⟩
  rcases mem_stageInclude h1 with ⟨h2, hin⟩
  rcases List.mem_filter.mp h2 with ⟨h3, hassign⟩
  rcases List.mem_filter.mp h3 with ⟨_, hstatus⟩
  exact ⟨hstatus, hassign, hin, hex⟩

/-- C8 amended: `applyFilters` only drops elements and keeps relative order
(its result is a sublist of the input), it is idempotent for a fixed
filter, and no surviving issue has an assignee or has `status:in-progress`
as its derived status label — the first `status:`-prefixed label on the
issue. (As stated, the claim fails: an issue carrying `status:in-progress`
behind another status label survives; see the counterexample.) -/
theorem c8_filters_amended :
    ∀ (issues : List Issue) (filter : SelectionFilter),
      (applyFilters issues filter).Sublist issues ∧
      applyFilters (applyFilters issues filter) filter = applyFilters issues filter ∧
      ∀ i ∈ applyFilters issues filter,
        getStatusLabel i ≠ some "status:in-progress" ∧ i.assignees = [] := by
  intro issues F
  refine ⟨?_, ?_, ?_⟩
  · rw [applyFilters_eq]
    exact ((stageExclude_sublist _ _).trans (stageInclude_sublist _ _)).trans
      ((List.filter_sublist _).trans (List.filter_sublist _))
  · rw [applyFilters_eq (applyFilters issues F) F]
    rw [List.filter_eq_self.mpr (fun i hi => (mem_applyFilters_pred hi).1)]
    rw [List.filter_eq_self.mpr (fun i hi => (mem_applyFilters_pred hi).2.1)]
    rw [stageInclude_eq_self _ _ (fun i hi => (mem_applyFilters_pred hi).2.2.1)]
    rw [stageExclude_eq_self _ _ (fun i hi => (mem_applyFilters_pred hi).2.2.2)]
  · intro i hi
    have hp := mem_applyFilters_pred hi
    constructor
    · have := hp.1
      rw [notInProgress] at this
      exact bne_iff_ne.mp this
    · have := hp.2.1
      rw [noAssignees] at this
      exact List.length_eq_zero.mp (beq_iff_eq.mp this)

/-- C8 witness: the amended conjunction applied at the concrete singleton
candidate list — issue #45 survives the empty filter, has no assignee and
its derived status is not `status:in-progress`. -/
theorem c8_filters_amended_witness :
    getStatusLabel issue45 ≠ some "status:in-progress" ∧ issue45.assignees = [] := by
  have h := c8_filters_amended [issue45] emptyFilter
  exact h.2.2 issue45 (by decide)

/-- `codeAllows` is monotone in the justification list. -/
theorem codeAllows_mono {t : PhaseTransition}
    {justs justs' : List SkipJustification}
    (hsub : ∀ j ∈ justs, j ∈ justs') (h : codeAllows t justs) :
    codeAllows t justs' := by
  rcases h with h | ⟨h1, h2⟩
  · exact Or.inl h
  · refine Or.inr ⟨h1, fun p hp => ?_⟩
    obtain ⟨j, hjm, hje⟩ := h2 p hp
    exact ⟨j, hsub j hjm, hje⟩

/-- A transition that validates must be directly valid, or a `canSkipTo`
jump with either nothing skipped or a truthy justification. -/
theorem validate_none_cases (c tp : WorkflowPhase) (o : TransitionOptions)
    (h : validatePhaseTransition c tp o = none) :
    isValidTransition c tp = true ∨
      (canSkipTo c tp = true ∧
        ((getSkippedPhases c tp).isEmpty = true ∨ skipTruthy o = true)) := by
  unfold validatePhaseTransition at h
  generalize htb : testsTruthy o = tb at h
  generalize hsb : skipTruthy o = sb at h ⊢
  revert h
  cases c <;> cases tp <;> cases tb <;> cases sb <;> decide

/-- C4 amended: for every workflow state the store can produce — created
fresh, advanced by `recordPhaseTransition`, or touched by the branch/PR
updates — every history entry except the initial `selection → selection`
creation marker is admitted by the code's transition validation: directly
valid per `VALID_TRANSITIONS`, or a `canSkipTo` jump (index comparison
with absent phases at `-1`, so `abandoned` is always reachable) carrying a
skip-justification record for every phase `getSkippedPhases` lists. -/
theorem c4_history_allowed_amended :
    ∀ s : WorkflowState, WorkflowReachable s →
      ∀ t ∈ s.phaseHistory,
        codeAllows t s.skipJustifications ∨
          (t.fromPhase = .selection ∧ t.toPhase = .selection) := by
  intro s hs
  induction hs with
  | created n repo now trig =>
    intro t ht
    simp only [createWorkflowState, List.mem_singleton] at ht
    subst ht
    exact Or.inr ⟨rfl, rfl⟩
  | recorded sid now tp trig o hprev ih =>
    rename_i s₀
    intro t ht
    cases hv : validatePhaseTransition s₀.currentPhase tp o with
    | some code =>
      simp only [recordPhaseTransition, hv] at ht ⊢
      exact ih t ht
    | none =>
      simp only [recordPhaseTransition, hv] at ht ⊢
      rcases List.mem_append.mp ht with hmem | hmem
      · rcases ih t hmem with hca | hmk
        · refine Or.inl (codeAllows_mono (fun j hj => ?_) hca)
          by_cases hsj : skipTruthy o
          · simp only [hsj, if_true]
            exact List.mem_append_left _ hj
          · simp only [hsj, if_false]
            exact hj
        · exact Or.inr hmk
      · simp only [List.mem_singleton] at hmem
        subst hmem
        left
        rcases validate_none_cases _ _ _ hv with hd | ⟨hskip, hrest⟩
        · exact Or.inl hd
        · refine Or.inr ⟨hskip, fun p hp => ?_⟩
          rcases hrest with hempty | htruthy
          · rw [List.isEmpty_iff] at hempty
            rw [hempty] at hp
            exact absurd hp (List.not_mem_nil p)
          · refine ⟨⟨p, o.skipJustification.getD "", now, sid⟩, ?_, rfl⟩
            rw [if_pos htruthy]
            exact List.mem_append_right _
              (List.mem_map.mpr ⟨p, hp, rfl⟩)
  | branchUpdated bn hprev ih =>
    intro t ht
    exact ih t ht
  | prUpdated pn hprev ih =>
    intro t ht
    exact ih t ht

/-- C4 witness: the amended invariant applied to the concrete state
obtained by creating the state for issue #42 and advancing it to
`research`; the recorded `selection → research` entry is admitted. -/
theorem c4_history_allowed_amended_witness :
    codeAllows ⟨.selection, .research, "t1", "advance_workflow"⟩
      (recordPhaseTransition "sid" "t1" wf42 .research "advance_workflow"
        emptyOptions).2.skipJustifications ∨
    ((⟨.selection, .research, "t1", "advance_workflow"⟩ : PhaseTransition).fromPhase =
        .selection ∧
      (⟨.selection, .research, "t1", "advance_workflow"⟩ : PhaseTransition).toPhase =
        .selection) := by
  have hreach : WorkflowReachable
      (recordPhaseTransition "sid" "t1" wf42 .research "advance_workflow" emptyOptions).2 :=
    WorkflowReachable.recorded "sid" "t1" .research "advance_workflow" emptyOptions
      (WorkflowReachable.created 42 "octo/repo" "2026-01-01T00:00:00Z" "select_next_issue")
  exact c4_history_allowed_amended _ hreach _ (by decide)

/-- A lock created at the current instant by a live process is not stale. -/
theorem fresh_lock_not_stale {probe : Nat → ProbeResult} {pid : Nat}
    (h : isProcessAlive probe pid = true) (n : Nat) (repo sid : String) (now : Int) :
    isLockStale now probe (createLock n repo sid pid now) = false := by
  simp [isLockStale, createLock, LOCK_STALE_TIMEOUT_MS, h, sub_self]

/-- One step of an in-flight acquirer preserves the race invariant
components that mention it, provided all values it can have read are
non-stale and the stepping process is alive. -/
theorem acqStep_preserves (n : Nat) (repo : String) (who : AcquirerId) (now : Int)
    (probe : Nat → ProbeResult) (hwho : isProcessAlive probe who.pid = true)
    {p q : AcqProc} {fs : Option Lock}
    (hp : ∀ l, p.readVal = some l → isLockStale now probe l = false)
    (hfs : ∀ l, fs = some l → isLockStale now probe l = false)
    (hnone : fs = none → gotLock p = false ∧ gotLock q = false)
    (hboth : ¬(gotLock p = true ∧ gotLock q = true)) :
    (∀ l, (acqStep n repo who now probe p fs).1.readVal = some l →
      isLockStale now probe l = false) ∧
    (∀ l, (acqStep n repo who now probe p fs).2 = some l →
      isLockStale now probe l = false) ∧
    ((acqStep n repo who now probe p fs).2 = none →
      gotLock (acqStep n repo who now probe p fs).1 = false ∧ gotLock q = false) ∧
    ¬(gotLock (acqStep n repo who now probe p fs).1 = true ∧ gotLock q = true) := by
  rcases p with ⟨pc, rv, oc⟩
  cases pc with
  | zero =>
    exact ⟨hfs, hfs, fun hf => hnone hf, hboth⟩
  | succ pc1 =>
    cases pc1 with
    | zero =>
      cases rv with
      | some l =>
        have hns : isLockStale now probe l = false := hp l rfl
        have hred : acqStep n repo who now probe ⟨1, some l, oc⟩ fs =
            (⟨3, some l, some .lockHeld⟩, fs) := by
          simp [acqStep, hns]
        rw [hred]
        refine ⟨?_, hfs, ?_, ?_⟩
        · intro l' h'
          injection h' with e
          exact e ▸ hns
        · intro hf
          exact ⟨rfl, (hnone hf).2⟩
        · rintro ⟨hga, _⟩
          exact Bool.noConfusion hga
      | none =>
        cases fs with
        | some l0 =>
          have hred : acqStep n repo who now probe ⟨1, none, oc⟩ (some l0) =
              (⟨3, none, some .lockHeld⟩, some l0) := rfl
          rw [hred]
          refine ⟨?_, hfs, ?_, ?_⟩
          · intro l h
            exact Option.noConfusion h
          · intro hf
            exact Option.noConfusion hf
          · rintro ⟨hga, _⟩
            exact Bool.noConfusion hga
        | none =>
          have hred : acqStep n repo who now probe ⟨1, none, oc⟩ none =
              (⟨3, none, some (.success (createLock n repo who.sessionId who.pid now))⟩,
                some (createLock n repo who.sessionId who.pid now)) := rfl
          rw [hred]
          refine ⟨?_, ?_, ?_, ?_⟩
          · intro l h
            exact Option.noConfusion h
          · intro l h
            injection h with e
            exact e ▸ fresh_lock_not_stale hwho n repo who.sessionId now
          · intro hf
            exact Option.noConfusion hf
          · rintro ⟨_, hgb⟩
            exact Bool.noConfusion (((hnone rfl).2).symm.trans hgb)
    | succ pc2 =>
      cases pc2 with
      | zero =>
        cases fs with
        | some l0 =>
          have hred : acqStep n repo who now probe ⟨2, rv, oc⟩ (some l0) =
              (⟨3, rv, some .lockHeld⟩, some l0) := rfl
          rw [hred]
          refine ⟨hp, hfs, ?_, ?_⟩
          · intro hf
            exact Option.noConfusion hf
          · rintro ⟨hga, _⟩
            exact Bool.noConfusion hga
        | none =>
          have hred : acqStep n repo who now probe ⟨2, rv, oc⟩ none =
              (⟨3, rv, some (.success (createLock n repo who.sessionId who.pid now))⟩,
                some (createLock n repo who.sessionId who.pid now)) := rfl
          rw [hred]
          refine ⟨hp, ?_, ?_, ?_⟩
          · intro l h
            injection h with e
            exact e ▸ fresh_lock_not_stale hwho n repo who.sessionId now
          · intro hf
            exact Option.noConfusion hf
          · rintro ⟨_, hgb⟩
            exact Bool.noConfusion (((hnone rfl).2).symm.trans hgb)
      | succ pc3 =>
        exact ⟨hp, hfs, fun hf => hnone hf, hboth⟩

/-- The race invariant is preserved by every scheduled step. -/
theorem raceInv_step {n : Nat} {repo : String} {A B : AcquirerId} {now : Int}
    {probe : Nat → ProbeResult} (hA : isProcessAlive probe A.pid = true)
    (hB : isProcessAlive probe B.pid = true) {s : RaceState} (choice : Bool)
    (h : raceInv now probe s) :
    raceInv now probe (raceStep n repo A B now probe s choice) := by
  obtain ⟨h1, h2, h3, h4, h5⟩ := h
  cases choice
  · have hstep := acqStep_preserves n repo A now probe hA h1 h3 h4 h5
    exact ⟨hstep.1, h2, hstep.2.1, hstep.2.2.1, hstep.2.2.2⟩
  · have hstep := acqStep_preserves n repo B now probe hB h2 h3
      (fun hf => ⟨(h4 hf).2, (h4 hf).1⟩) (fun hc => h5 ⟨hc.2, hc.1⟩)
    exact ⟨h1, hstep.1, hstep.2.1,
      fun hf => ⟨(hstep.2.2.1 hf).2, (hstep.2.2.1 hf).1⟩,
      fun hc => hstep.2.2.2 ⟨hc.2, hc.1⟩⟩

/-- The race invariant is preserved by whole schedules. -/
theorem raceInv_run {n : Nat} {repo : String} {A B : AcquirerId} {now : Int}
    {probe : Nat → ProbeResult} (hA : isProcessAlive probe A.pid = true)
    (hB : isProcessAlive probe B.pid = true) :
    ∀ (schedule : List Bool) (s : RaceState), raceInv now probe s →
      raceInv now probe (runRace n repo A B now probe schedule s) := by
  intro schedule
  induction schedule with
  | nil => intro s h; exact h
  | cons c cs ih =>
    intro s h
    exact ih (raceStep n repo A B now probe s c) (raceInv_step hA hB c h)

/-- C3 amended: the acquisition protocol behaves as described — an existing
non-stale record fails with `LOCK_HELD` and is left unchanged; a stale
record (older than 30 minutes, or holder probe failing with other than a
permission error) is deleted and a fresh lock for the calling session is
exclusive-created; a create hitting an existing file yields `LOCK_HELD`;
and when the cell never holds a stale lock, no interleaving of two live
concurrent acquirers lets both return success. (The unrestricted claim —
exclusion even in the presence of a stale lock — fails by the
counterexample: the stale-delete step is not guarded, so one acquirer can
delete the other's freshly created lock.) -/
theorem c3_acquire_protocol_amended :
    (∀ (n : Nat) (repo sid : String) (pid : Nat) (now : Int)
       (probe : Nat → ProbeResult) (l : Lock),
      isLockStale now probe l = false →
      acquireLock n repo sid pid now probe (some l) = (.lockHeld, some l)) ∧
    (∀ (n : Nat) (repo sid : String) (pid : Nat) (now : Int)
       (probe : Nat → ProbeResult) (l : Lock),
      isLockStale now probe l = true →
      acquireLock n repo sid pid now probe (some l) =
        (.success (createLock n repo sid pid now),
          some (createLock n repo sid pid now))) ∧
    (∀ (now : Int) (probe : Nat → ProbeResult) (l : Lock),
      isLockStale now probe l = true ↔
        (LOCK_STALE_TIMEOUT_MS < now - l.acquiredAt ∨
          (probe l.pid ≠ .ok ∧ probe l.pid ≠ .err "EPERM"))) ∧
    (∀ lockData existing : Lock,
      exclusiveCreate lockData (some existing) = (.lockHeld, some existing)) ∧
    (∀ (n : Nat) (repo : String) (A B : AcquirerId) (now : Int)
       (probe : Nat → ProbeResult) (fs0 : Option Lock) (schedule : List Bool),
      (∀ l, fs0 = some l → isLockStale now probe l = false) →
      isProcessAlive probe A.pid = true → isProcessAlive probe B.pid = true →
      ¬(gotLock (runRace n repo A B now probe schedule ⟨acqInit, acqInit, fs0⟩).a = true ∧
        gotLock (runRace n repo A B now probe schedule ⟨acqInit, acqInit, fs0⟩).b = true)) := by
  refine ⟨?_, ?_, ?_, ?_, ?_⟩
  · intro n repo sid pid now probe l h
    simp [acquireLock, h]
  · intro n repo sid pid now probe l h
    simp [acquireLock, h, exclusiveCreate]
  · intro now probe l
    unfold isLockStale isProcessAlive LOCK_STALE_TIMEOUT_MS
    cases hpr : probe l.pid with
    | ok => simp
    | err c =>
      by_cases hc : c = "EPERM" <;> simp [hc]
  · intro lockData existing
    rfl
  · intro n repo A B now probe fs0 schedule hfs hA hB
    have hinit : raceInv now probe ⟨acqInit, acqInit, fs0⟩ := by
      unfold raceInv
      refine ⟨?_, ?_, hfs, ?_, ?_⟩
      · intro l h
        exact Option.noConfusion h
      · intro l h
        exact Option.noConfusion h
      · intro hf
        exact ⟨rfl, rfl⟩
      · rintro ⟨hc, _⟩
        exact Bool.noConfusion hc
    exact (raceInv_run hA hB schedule _ hinit).2.2.2.2

/-- C3 witness: the amended protocol at a concrete non-stale lock — a
second session's acquisition attempt fails with `LOCK_HELD` and leaves the
record in place. -/
theorem c3_acquire_protocol_amended_witness :
    acquireLock 42 "octo/repo" "session-b" 101 0 allAlive (some lockOfSessionA) =
      (.lockHeld, some lockOfSessionA) :=
  c3_acquire_protocol_amended.1 42 "octo/repo" "session-b" 101 0 allAlive
    lockOfSessionA (by decide)

/-- `splitChar` never returns the empty list of segments. -/
theorem splitChar_ne_nil (sep : Char) (l : List Char) : splitChar sep l ≠ [] := by
  induction l with
  | nil => simp [splitChar]
  | cons c cs ih =>
    by_cases h : c = sep
    · simp [splitChar, h]
    · cases hr : splitChar sep cs with
      | nil => exact absurd hr ih
      | cons a t => simp [splitChar, h, hr]

/-- Splitting a separator-free list yields that list as the only segment. -/
theorem splitChar_not_mem {sep : Char} :
    ∀ {xs : List Char}, sep ∉ xs → splitChar sep xs = [xs] := by
  intro xs
  induction xs with
  | nil => intro _; rfl
  | cons c cs ih =>
    intro h
    have hc : ¬(c = sep) := fun e => h (e ▸ List.mem_cons_self c cs)
    have hcs : sep ∉ cs := fun hm => h (List.mem_cons_of_mem c hm)
    simp [splitChar, hc, ih hcs]

/-- Splitting peels off a separator-free leading segment. -/
theorem splitChar_append {sep : Char} :
    ∀ {xs : List Char} (ys : List Char), sep ∉ xs →
      splitChar sep (xs ++ sep :: ys) = xs :: splitChar sep ys := by
  intro xs
  induction xs with
  | nil =>
    intro ys _
    simp [splitChar]
  | cons c cs ih =>
    intro ys h
    have hc : ¬(c = sep) := fun e => h (e ▸ List.mem_cons_self c cs)
    have hcs : sep ∉ cs := fun hm => h (List.mem_cons_of_mem c hm)
    simp [List.cons_append, splitChar, hc, ih ys hcs]

/-- The number of segments is the separator count plus one. -/
theorem splitChar_length (sep : Char) :
    ∀ l : List Char, (splitChar sep l).length = l.count sep + 1 := by
  intro l
  induction l with
  | nil => rfl
  | cons c cs ih =>
    by_cases h : c = sep
    · subst h
      simp [splitChar, ih, List.count_cons]
    · cases hr : splitChar sep cs with
      | nil => exact absurd hr (splitChar_ne_nil sep cs)
      | cons a t =>
        rw [hr] at ih
        simp [splitChar, h, hr, List.count_cons, Ne.symm h] at ih ⊢
        omega

/-- No decimal digit renders as an underscore. -/
theorem digitChar_ne_underscore (d : Nat) : digitChar d ≠ '_' := by
  unfold digitChar
  split <;> decide

/-- `charDigit` inverts `digitChar` on digit values. -/
theorem charDigit_digitChar {d : Nat} (h : d < 10) :
    charDigit (digitChar d) = some d := by
  interval_cases d <;> rfl

/-- Every character of a rendered number is a rendered digit. -/
theorem mem_natChars {c : Char} {n : Nat} (h : c ∈ natChars n) :
    ∃ d, d < 10 ∧ c = digitChar d := by
  unfold natChars at h
  by_cases h0 : n = 0
  · rw [if_pos h0] at h
    simp only [List.mem_singleton] at h
    exact ⟨0, by norm_num, by rw [h]; rfl⟩
  · rw [if_neg h0] at h
    rcases List.mem_map.mp h with ⟨d, hd, rfl⟩
    exact ⟨d, Nat.digits_lt_base (by norm_num) (List.mem_reverse.mp hd), rfl⟩

/-- A rendered number contains no underscore. -/
theorem underscore_not_mem_natChars (n : Nat) : '_' ∉ natChars n := by
  intro h
  rcases mem_natChars h with ⟨d, _, he⟩
  exact digitChar_ne_underscore d he.symm

/-- Digit extraction inverts digit rendering. -/
theorem digitsOfChars_map :
    ∀ {L : List Nat}, (∀ d ∈ L, d < 10) →
      digitsOfChars (L.map digitChar) = some L := by
  intro L
  induction L with
  | nil => intro _; rfl
  | cons d t ih =>
    intro h
    have hd : d < 10 := h d (List.mem_cons_self d t)
    have ht : ∀ x ∈ t, x < 10 := fun x hx => h x (List.mem_cons_of_mem d hx)
    simp [digitsOfChars, charDigit_digitChar hd, ih ht]

/-- Horner evaluation of reversed digit lists. -/
theorem foldl_ten_reverse :
    ∀ (L : List Nat) (a : Nat),
      (L.reverse).foldl (fun x d => 10 * x + d) a =
        a * 10 ^ L.length + Nat.ofDigits 10 L := by
  intro L
  induction L with
  | nil => intro a; simp
  | cons d t ih =>
    intro a
    simp only [List.reverse_cons, List.foldl_append, List.foldl_cons, List.foldl_nil,
      ih, List.length_cons]
    rw [Nat.ofDigits_cons]
    ring

/-- Parsing the rendered decimal digits of `n` yields `n`. -/
theorem charsToNat_natChars (n : Nat) : charsToNat (natChars n) = some n := by
  by_cases h0 : n = 0
  · subst h0; rfl
  · have hd : ∀ d ∈ (Nat.digits 10 n).reverse, d < 10 :=
      fun d hdm => Nat.digits_lt_base (by norm_num) (List.mem_reverse.mp hdm)
    have hne : (Nat.digits 10 n).reverse ≠ [] := by
      simp [Nat.digits_ne_nil_iff_ne_zero.mpr h0]
    have hemp : (Nat.digits 10 n).reverse.isEmpty = false := by
      rcases hx : (Nat.digits 10 n).reverse with _ | ⟨a, t⟩
      · exact absurd hx hne
      · rfl
    unfold charsToNat natChars
    rw [if_neg h0, digitsOfChars_map hd]
    simp only [hemp, Bool.false_eq_true, if_false]
    rw [foldl_ten_reverse]
    simp [Nat.ofDigits_digits]

/-- `getLockFileName` decomposed as a stem plus the `.lockdata` suffix. -/
theorem getLockFileName_eq (owner repo : List Char) (n : Nat) :
    getLockFileName owner repo n =
      (owner ++ '_' :: (repo ++ '_' :: natChars n)) ++ lockSuffix := by
  simp [getLockFileName, List.append_assoc]

/-- Parsing a name that ends in the suffix reduces to matching the stem. -/
theorem parse_stem_append (stem : List Char) :
    parseLockFileName (stem ++ lockSuffix) = parseStem stem := by
  have h1 : ¬((stem ++ lockSuffix).length < lockSuffix.length) := by
    rw [List.length_append]; omega
  have h2 : (stem ++ lockSuffix).length - lockSuffix.length = stem.length := by
    rw [List.length_append]; omega
  unfold parseLockFileName parseStem
  rw [if_neg h1, h2, List.drop_left, List.take_left]
  simp

/-- Round-trip of lock file names for non-empty, underscore-free owner and
repo segments. -/
theorem parseLockFileName_roundtrip (owner repo : List Char) (n : Nat)
    (ho : owner ≠ []) (hr : repo ≠ []) (hno : '_' ∉ owner) (hnr : '_' ∉ repo) :
    parseLockFileName (getLockFileName owner repo n) = some (owner, repo, n) := by
  rw [getLockFileName_eq, parse_stem_append]
  unfold parseStem
  rw [splitChar_append (repo ++ '_' :: natChars n) hno,
    splitChar_append (natChars n) hnr,
    splitChar_not_mem (underscore_not_mem_natChars n)]
  have ho' : owner.isEmpty = false := by
    rcases owner with _ | ⟨x, xs⟩
    · exact absurd rfl ho
    · rfl
  have hr' : repo.isEmpty = false := by
    rcases repo with _ | ⟨x, xs⟩
    · exact absurd rfl hr
    · rfl
  simp [ho', hr', charsToNat_natChars]

/-- A lock file name whose owner or repo contains an underscore fails to
parse: the extra underscore makes the stem split into more than three
segments. -/
theorem parseLockFileName_underscore_none (owner repo : List Char) (n : Nat)
    (hmem : '_' ∈ owner ∨ '_' ∈ repo) :
    parseLockFileName (getLockFileName owner repo n) = none := by
  rw [getLockFileName_eq, parse_stem_append]
  have h3 : (natChars n).count '_' = 0 :=
    List.count_eq_zero.mpr (underscore_not_mem_natChars n)
  have hcount : 2 < (owner ++ '_' :: (repo ++ '_' :: natChars n)).count '_' := by
    simp only [List.count_append, List.count_cons, h3]
    rcases hmem with h | h
    · have := List.count_pos_iff.mpr h
      simp
      omega
    · have := List.count_pos_iff.mpr h
      simp
      omega
  have hlen : 3 < (splitChar '_' (owner ++ '_' :: (repo ++ '_' :: natChars n))).length := by
    rw [splitChar_length]
    omega
  unfold parseStem
  rcases hsp : splitChar '_' (owner ++ '_' :: (repo ++ '_' :: natChars n)) with
    _ | ⟨a, _ | ⟨b, _ | ⟨c, _ | ⟨d, t⟩⟩⟩⟩
  all_goals rw [hsp] at hlen
  all_goals first | rfl | simp at hlen

/-- C10 amended: lock file names round-trip exactly for non-empty owner and
repo segments free of underscores (the original claim omitted
non-emptiness; the empty owner is the counterexample); with an underscore
in either segment the parse returns `null`, and `listLocks` consequently
omits such a lock file from its listing even though the file is present in
the scanned directory. -/
theorem c10_lock_file_name_roundtrip_amended :
    (∀ (owner repo : List Char) (n : Nat),
      owner ≠ [] → repo ≠ [] → '_' ∉ owner → '_' ∉ repo →
      parseLockFileName (getLockFileName owner repo n) = some (owner, repo, n)) ∧
    (∀ (owner repo : List Char) (n : Nat), '_' ∈ owner ∨ '_' ∈ repo →
      parseLockFileName (getLockFileName owner repo n) = none) ∧
    (∀ (owner repo : List Char) (n : Nat)
       (readLock : List Char × List Char × Nat → Option Lock) (now : Int)
       (probe : Nat → ProbeResult), '_' ∈ owner ∨ '_' ∈ repo →
      listLocks [getLockFileName owner repo n] readLock now probe = []) := by
  refine ⟨parseLockFileName_roundtrip, parseLockFileName_underscore_none, ?_⟩
  intro owner repo n readLock now probe hmem
  have hp := parseLockFileName_underscore_none owner repo n hmem
  by_cases he : endsWithLockdata (getLockFileName owner repo n) <;>
    simp [listLocks, he, hp]

/-- C10 witness: the round trip at the concrete name
`octo_repo_5.lockdata`. -/
theorem c10_lock_file_name_roundtrip_amended_witness :
    parseLockFileName (getLockFileName "octo".data "repo".data 5) =
      some ("octo".data, "repo".data, 5) :=
  c10_lock_file_name_roundtrip_amended.1 "octo".data "repo".data 5
    (by decide) (by decide) (by decide) (by decide)

/-- C10 counterexample: the empty owner contains no underscore, yet the
name it produces fails to parse (`__7.lockdata` has an empty first
segment), so the claimed round trip does not hold for all
underscore-free inputs. -/
theorem c10_empty_owner_roundtrip_fails :
    '_' ∉ ([] : List Char) ∧ '_' ∉ "repo".data ∧
    parseLockFileName (getLockFileName [] "repo".data 7) = none := by
  refine ⟨by simp, by decide, ?_⟩
  rw [getLockFileName_eq, parse_stem_append]
  unfold parseStem
  rw [List.nil_append,
    show ('_' :: ("repo".data ++ '_' :: natChars 7)) =
      ([] : List Char) ++ '_' :: ("repo".data ++ '_' :: natChars 7) from rfl,
    splitChar_append ("repo".data ++ '_' :: natChars 7) (by simp),
    splitChar_append (natChars 7) (by decide),
    splitChar_not_mem (underscore_not_mem_natChars 7)]
  rfl

end MCPIssuePriority
